import Mathlib

/-!
Verification of the pyclaw / pytoclaw message-gateway core.

This file shallowly embeds the data model and the operations of the
repository (session persistence, route resolution, tool registry,
provider fallback chain, message bus, cron service, channel allowlist)
as executable Lean definitions, and proves the specified properties
about them.  Stateful Python code is rendered as explicit state passing;
Python exceptions are rendered in the `Except` monad; JSON files are
rendered as JSON values (the text layer of `json.dumps`/`json.loads` is
identified with the value it denotes).
-/

namespace Pyclaw

/-- A JSON value, the codomain of `model_dump(mode="json")` and the
domain of `model_validate` used by the session store. -/
inductive Json where
  | str : String → Json
  | num : Nat → Json
  | bool : Bool → Json
  | null : Json
  | arr : List Json → Json
  | obj : List (String × Json) → Json

/-- Association-list lookup, modelling `dict.get` on a Python dict. -/
def alistLookup {α : Type} : List (String × α) → String → Option α
  | [], _ => none
  | (k', v) :: rest, k => if k' = k then some v else alistLookup rest k

/-- Association-list update, modelling `d[k] = v` on a Python dict
(the value is replaced in place, a fresh key is appended). -/
def alistInsert {α : Type} : List (String × α) → String → α → List (String × α)
  | [], k, v => [(k, v)]
  | (k', v') :: rest, k, v =>
    if k' = k then (k, v) :: rest else (k', v') :: alistInsert rest k v

theorem alistLookup_insert {α : Type} (l : List (String × α)) (k k' : String) (v : α) :
    alistLookup (alistInsert l k v) k' = if k = k' then some v else alistLookup l k' := by
  induction l with
  | nil => simp [alistInsert, alistLookup]
  | cons hd tl ih =>
    obtain ⟨k₀, v₀⟩ := hd
    by_cases h0 : k₀ = k <;> by_cases h1 : k = k'
    · subst h0; subst h1; simp [alistInsert, alistLookup]
    · subst h0; simp [alistInsert, alistLookup, h1]
    · subst h1; simp [alistInsert, alistLookup, h0, ih]
    · by_cases h2 : k₀ = k'
      · subst h2; simp [alistInsert, alistLookup, h0, h1, ih]
      · simp [alistInsert, alistLookup, h0, h1, h2, ih]

/-- Validate every element of a list, failing when any element fails
(a Python list comprehension over a validator that may throw). -/
def optMapM {α β : Type} (f : α → Option β) : List α → Option (List β)
  | [] => some []
  | a :: rest =>
    match f a, optMapM f rest with
    | some b, some bs => some (b :: bs)
    | _, _ => none

/-- Modelled from the spec: `pyclaw.models.ToolCall` is absent from the
source tree (only `pyclaw/models.py` importers are present); per spec §3 a
tool call is `{id, name, arguments:mapping<string,any>}`.  Arguments are
modelled as a JSON object body. -/
structure ToolCall where
  id : String := ""
  name : String := ""
  arguments : List (String × Json) := []

/-- Modelled from the spec: `pyclaw.models.Message` is absent from the
source tree; per spec §3 a message is
`{role, content, tool_calls, tool_call_id}`. -/
structure Message where
  role : String
  content : String := ""
  tool_calls : List ToolCall := []
  tool_call_id : String := ""

/-- Modelled from the spec: `pyclaw.models.Session` is absent from the
source tree; per spec §3 a session is
`{key, messages, summary, created, updated}`.  Timestamps are modelled
as naturals. -/
structure Session where
  key : String
  messages : List Message := []
  summary : String := ""
  created : Nat := 0
  updated : Nat := 0

/-- JSON encoding of a tool call (`model_dump(mode="json")`). -/
def ToolCall.toJson (tc : ToolCall) : Json :=
  .obj [("id", .str tc.id), ("name", .str tc.name), ("arguments", .obj tc.arguments)]

/-- JSON encoding of a message (`model_dump(mode="json")`). -/
def Message.toJson (m : Message) : Json :=
  .obj [("role", .str m.role), ("content", .str m.content),
        ("tool_calls", .arr (m.tool_calls.map ToolCall.toJson)),
        ("tool_call_id", .str m.tool_call_id)]

/-- JSON encoding of a session (`Session.model_dump(mode="json")` as
used by `SessionManager.save`). -/
def Session.toJson (s : Session) : Json :=
  .obj [("key", .str s.key), ("messages", .arr (s.messages.map Message.toJson)),
        ("summary", .str s.summary), ("created", .num s.created),
        ("updated", .num s.updated)]

/-- Read a string field, falling back to the pydantic default when the
field is absent and failing validation when it has the wrong type. -/
def getStrField (fields : List (String × Json)) (k dflt : String) : Option String :=
  match alistLookup fields k with
  | none => some dflt
  | some (.str s) => some s
  | some _ => none

/-- Read a numeric field with a default, as pydantic validation does. -/
def getNatField (fields : List (String × Json)) (k : String) (dflt : Nat) : Option Nat :=
  match alistLookup fields k with
  | none => some dflt
  | some (.num n) => some n
  | some _ => none

/-- Validation of a tool call (`model_validate`). -/
def ToolCall.fromJson? (j : Json) : Option ToolCall :=
  match j with
  | .obj fields =>
    match getStrField fields "id" "", getStrField fields "name" "",
          alistLookup fields "arguments" with
    | some id, some name, some (.obj args) => some ⟨id, name, args⟩
    | some id, some name, none => some ⟨id, name, []⟩
    | _, _, _ => none
  | _ => none

/-- Validation of a message (`model_validate`). -/
def Message.fromJson? (j : Json) : Option Message :=
  match j with
  | .obj fields =>
    match getStrField fields "role" "", getStrField fields "content" "",
          getStrField fields "tool_call_id" "" with
    | some role, some content, some tcid =>
      match alistLookup fields "tool_calls" with
      | some (.arr tcs) =>
        match optMapM ToolCall.fromJson? tcs with
        | some calls => some ⟨role, content, calls, tcid⟩
        | none => none
      | none => some ⟨role, content, [], tcid⟩
      | some _ => none
    | _, _, _ => none
  | _ => none

/-- Validation of a session (`Session.model_validate` as used by
`SessionManager._load_sessions`); `key` has no default and is required. -/
def Session.fromJson? (j : Json) : Option Session :=
  match j with
  | .obj fields =>
    match alistLookup fields "key", getStrField fields "summary" "",
          getNatField fields "created" 0, getNatField fields "updated" 0 with
    | some (.str key), some summary, some created, some updated =>
      match alistLookup fields "messages" with
      | some (.arr ms) =>
        match optMapM Message.fromJson? ms with
        | some msgs => some ⟨key, msgs, summary, created, updated⟩
        | none => none
      | none => some ⟨key, [], summary, created, updated⟩
      | some _ => none
    | _, _, _, _ => none
  | _ => none

theorem toolcall_json_roundtrip (tc : ToolCall) : ToolCall.fromJson? tc.toJson = some tc := by
  cases tc
  simp [ToolCall.fromJson?, ToolCall.toJson, getStrField, alistLookup]

theorem message_json_roundtrip (m : Message) : Message.fromJson? m.toJson = some m := by
  cases m with
  | mk role content tool_calls tool_call_id =>
    have hmap : optMapM ToolCall.fromJson? (tool_calls.map ToolCall.toJson) = some tool_calls := by
      induction tool_calls with
      | nil => simp [optMapM]
      | cons hd tl ih => simp [optMapM, toolcall_json_roundtrip, ih]
    simp [Message.fromJson?, Message.toJson, getStrField, alistLookup, hmap]

theorem session_json_roundtrip (s : Session) : Session.fromJson? s.toJson = some s := by
  cases s with
  | mk key messages summary created updated =>
    have hmap : optMapM Message.fromJson? (messages.map Message.toJson) = some messages := by
      induction messages with
      | nil => simp [optMapM]
      | cons hd tl ih => simp [optMapM, message_json_roundtrip, ih]
    simp [Session.fromJson?, Session.toJson, getStrField, getNatField, alistLookup, hmap]

/-- `_sanitize_filename`: replace every character outside
`[a-zA-Z0-9_-]` with an underscore. -/
def sanitizeFilename (name : String) : String :=
  String.mk (name.data.map fun c =>
    if c.isAlpha || c.isDigit || c = '_' || c = '-' then c else '_')

/-- `SessionManager._session_path`: the storage file for a key,
relative to the storage directory. -/
def sessionPath (key : String) : String :=
  sanitizeFilename key ++ ".json"

/-- The state of a `SessionManager`: the in-memory session dict plus the
storage directory, modelled as a map from file name to the JSON value the
file holds. -/
structure SMState where
  sessions : List (String × Session) := []
  files : List (String × Json) := []

/-- `SessionManager.get_or_create`. -/
def getOrCreate (st : SMState) (key : String) (now : Nat) : SMState × Session :=
  match alistLookup st.sessions key with
  | some s => (st, s)
  | none =>
    let s : Session := { key := key, created := now, updated := now }
    ({ st with sessions := alistInsert st.sessions key s }, s)

/-- `SessionManager.add_message`: append `Message(role, content)` to the
session and stamp `updated`. -/
def addMessage (st : SMState) (key role content : String) (now : Nat) : SMState :=
  let (st', s) := getOrCreate st key now
  let s' := { s with messages := s.messages ++ [{ role := role, content := content }], updated := now }
  { st' with sessions := alistInsert st'.sessions key s' }

/-- `SessionManager.save`: serialize the session and atomically write it
to its sanitized path (temp-file plus rename collapses to a single map
update). Saving an unknown key is a no-op. -/
def save (st : SMState) (key : String) : SMState :=
  match alistLookup st.sessions key with
  | none => st
  | some s => { st with files := alistInsert st.files (sessionPath key) (Session.toJson s) }

/-- The per-file step of `SessionManager._load_sessions`: parse the file
text and validate it into a `Session` (corrupt files yield `none` and
are skipped). -/
def loadSessionFile (j : Json) : Option Session :=
  Session.fromJson? j

/-- `SessionManager._load_sessions`: fold over the stored `*.json`
files, keying each successfully validated session by its own `key`
field. -/
def loadSessions (files : List (String × Json)) : List (String × Session) :=
  files.foldl
    (fun acc file =>
      match loadSessionFile file.2 with
      | some s => alistInsert acc s.key s
      | none => acc)
    []

/-- C1. After `add_message(k, r, c)` followed by `save(k)`, reloading the
session file from disk as `_load_sessions` does yields a session whose
`key`, `messages` sequence and `summary` equal the in-memory session
exactly. -/
theorem session_save_roundtrip (st : SMState) (k r c : String) (now : Nat) :
    ∃ s : Session,
      alistLookup (save (addMessage st k r c now) k).sessions k = some s ∧
      ∃ j : Json,
        alistLookup (save (addMessage st k r c now) k).files (sessionPath k) = some j ∧
        ∃ loaded : Session,
          loadSessionFile j = some loaded ∧
          loaded.key = s.key ∧ loaded.messages = s.messages ∧ loaded.summary = s.summary := by
  have hmem : ∃ s : Session, alistLookup (addMessage st k r c now).sessions k = some s := by
    unfold addMessage getOrCreate
    cases h : alistLookup st.sessions k with
    | none =>
      exact ⟨{ key := k, messages := [{ role := r, content := c }], created := now, updated := now },
             by simp [h, alistLookup_insert]⟩
    | some s₀ =>
      exact ⟨{ s₀ with messages := s₀.messages ++ [{ role := r, content := c }], updated := now },
             by simp [h, alistLookup_insert]⟩
  obtain ⟨s, hs⟩ := hmem
  refine ⟨s, ?_, Session.toJson s, ?_, s, ?_, rfl, rfl, rfl⟩
  · simp [save, hs]
  · simp [save, hs, alistLookup_insert]
  · exact session_json_roundtrip s

/-- C10. Session-key sanitization is not injective: the distinct keys
`"a:b"` and `"a*b"` map to the same file, so saving one then the other
leaves a single file holding only the second session, and reloading the
directory recovers only the second session. -/
theorem sanitize_collision :
    ("a:b" : String) ≠ "a*b" ∧
    sessionPath "a:b" = sessionPath "a*b" ∧
    (let st := save (save (addMessage (addMessage {} "a:b" "user" "one" 5) "a*b" "user" "two" 6) "a:b") "a*b"
     st.files = [("a_b.json",
        Session.toJson { key := "a*b", messages := [{ role := "user", content := "two" }],
                         summary := "", created := 6, updated := 6 })] ∧
     loadSessions st.files =
       [("a*b", { key := "a*b", messages := [{ role := "user", content := "two" }],
                  summary := "", created := 6, updated := 6 })]) := by
  refine ⟨by decide, by decide, ?_, ?_⟩
  · rfl
  · rfl

/-! ## Channel allowlist (`pyclaw.channels.base.BaseChannel.is_allowed`) -/

/-- Python `str.lstrip("@")`: drop every leading `@`. -/
def lstripAt (s : String) : String :=
  String.mk (s.data.dropWhile fun c => c = '@')

/-- Python `str.split("|")`: split on every occurrence of `|`, keeping
empty fragments (`""` splits to `[""]`). -/
def splitPipeAux : List Char → List Char → List String
  | [], acc => [String.mk acc.reverse]
  | c :: rest, acc =>
    if c = '|' then String.mk acc.reverse :: splitPipeAux rest []
    else splitPipeAux rest (c :: acc)

def splitPipe (s : String) : List String :=
  splitPipeAux s.data []

/-- `BaseChannel.is_allowed`: empty allowlist admits everyone; otherwise
the compound sender id is split on `|` and each side is compared against
each entry after stripping leading `@` from both. -/
def isAllowed (allow_list : List String) (sender_id : String) : Bool :=
  if allow_list.isEmpty then true
  else
    let sender_parts := splitPipe sender_id
    allow_list.any fun allowed =>
      sender_parts.any fun part => lstripAt part = lstripAt allowed

/-- C8. `is_allowed` admits every sender under an empty allowlist; under
a non-empty allowlist it admits a sender iff some `|`-separated part of
the sender id equals some entry after stripping leading `@` from both
sides; in particular entry `"@x"` admits `"x"` and `"x|y"`. -/
theorem is_allowed_spec (l : List String) (s : String) :
    isAllowed [] s = true ∧
    (l ≠ [] →
      (isAllowed l s = true ↔
        ∃ a ∈ l, ∃ part ∈ splitPipe s, lstripAt part = lstripAt a)) ∧
    isAllowed ["@x"] "x" = true ∧
    isAllowed ["@x"] "x|y" = true := by
  refine ⟨rfl, ?_, by decide, by decide⟩
  intro hl
  have hne : l.isEmpty = false := by
    cases l with
    | nil => exact absurd rfl hl
    | cons a l' => rfl
  simp [isAllowed, hne, List.any_eq_true]

/-- Witness for C8 at the allowlist `["@x"]` and sender `"x|y"`. -/
theorem is_allowed_spec_witness :
    isAllowed ["@x"] "x" = true ∧
    (isAllowed ["@x"] "x|y" = true ↔
      ∃ a ∈ ["@x"], ∃ part ∈ splitPipe "x|y", lstripAt part = lstripAt a) := by
  exact ⟨(is_allowed_spec ["@x"] "x").2.2.1,
         (is_allowed_spec ["@x"] "x|y").2.1 (by decide)⟩

/-! ## Message bus (`pytoclaw.bus.message_bus.MessageBus`) -/

/-- `pytoclaw.models.InboundMessage`. -/
structure InboundMessage where
  channel : String := ""
  sender_id : String := ""
  chat_id : String := ""
  content : String := ""
  media : List String := []
  session_key : String := ""
  metadata : List (String × String) := []

/-- `pytoclaw.models.OutboundMessage`. -/
structure OutboundMessage where
  channel : String := ""
  chat_id : String := ""
  content : String := ""

/-- The state of a `MessageBus`: two bounded FIFO queues and the closed
flag. -/
structure MessageBus where
  inbound : List InboundMessage := []
  outbound : List OutboundMessage := []
  maxsize : Nat := 100
  closed : Bool := false

/-- `MessageBus.publish_inbound`: a closed bus drops the message and
returns at once; an open bus enqueues, suspending (`none`) while the
queue is full. -/
def publishInbound (bus : MessageBus) (msg : InboundMessage) : Option MessageBus :=
  if bus.closed then some bus
  else if bus.inbound.length < bus.maxsize then
    some { bus with inbound := bus.inbound ++ [msg] }
  else none

/-- `MessageBus.publish_outbound`. -/
def publishOutbound (bus : MessageBus) (msg : OutboundMessage) : Option MessageBus :=
  if bus.closed then some bus
  else if bus.outbound.length < bus.maxsize then
    some { bus with outbound := bus.outbound ++ [msg] }
  else none

/-- `MessageBus.consume_inbound`: a closed bus returns the empty
sentinel immediately; otherwise the head of the queue is taken, the poll
timeout returning the sentinel when the queue is empty. -/
def consumeInbound (bus : MessageBus) : Option InboundMessage × MessageBus :=
  if bus.closed then (none, bus)
  else
    match bus.inbound with
    | [] => (none, bus)
    | m :: rest => (some m, { bus with inbound := rest })

/-- `MessageBus.consume_outbound`. -/
def consumeOutbound (bus : MessageBus) : Option OutboundMessage × MessageBus :=
  if bus.closed then (none, bus)
  else
    match bus.outbound with
    | [] => (none, bus)
    | m :: rest => (some m, { bus with outbound := rest })

/-- `MessageBus.close`. -/
def closeBus (bus : MessageBus) : MessageBus :=
  { bus with closed := true }

/-- C6. After `close()`, every publish returns leaving both queues
unchanged (the message is dropped) and every consume returns the empty
sentinel, even when messages remain queued. -/
theorem closed_bus_drops (bus : MessageBus) (mi : InboundMessage) (mo : OutboundMessage) :
    publishInbound (closeBus bus) mi = some (closeBus bus) ∧
    publishOutbound (closeBus bus) mo = some (closeBus bus) ∧
    consumeInbound (closeBus bus) = (none, closeBus bus) ∧
    consumeOutbound (closeBus bus) = (none, closeBus bus) ∧
    (closeBus bus).inbound = bus.inbound ∧
    (closeBus bus).outbound = bus.outbound := by
  refine ⟨?_, ?_, ?_, ?_, rfl, rfl⟩ <;>
    simp [publishInbound, publishOutbound, consumeInbound, consumeOutbound, closeBus]

/-! ## Tool registry (`pyclaw.tools.registry.ToolRegistry`) -/

/-- Modelled from the spec: `pyclaw.models.ToolResult` is absent from
the source tree; per spec §3 a tool result is
`{for_llm, for_user, silent, is_error, is_async}`. -/
structure ToolResult where
  for_llm : String := ""
  for_user : String := ""
  silent : Bool := false
  is_error : Bool := false
  is_async : Bool := false

/-- `ToolResult.error`: an error result for the LLM. -/
def ToolResult.error (message : String) : ToolResult :=
  { for_llm := message, is_error := true }

/-- The async-completion callback handed to async-capable tools. -/
def AsyncCallback : Type := String → String

/-- A registered tool.  The contextual and async capability injections
(`set_context`, `set_callback`) performed by the registry before the
call are folded into the call itself: `run` receives the arguments, the
`(channel, chat_id)` context and the optional callback, and may throw
(`Except.error`). -/
structure RegisteredTool where
  name : String
  run : List (String × Json) → String → String → Option AsyncCallback → Except String ToolResult

/-- `ToolRegistry.execute`, written in the exception monad: the overall
call never propagates an exception (`Except.error`), returning an error
`ToolResult` for an unknown name and converting any exception thrown by
the tool into an error `ToolResult`. -/
def registryExecute (reg : List (String × RegisteredTool)) (name : String)
    (args : List (String × Json)) (channel chat_id : String)
    (cb : Option AsyncCallback) : Except String ToolResult :=
  match alistLookup reg name with
  | none => .ok (ToolResult.error ("Unknown tool: " ++ name))
  | some tool =>
    match tool.run args channel chat_id cb with
    | .ok r => .ok r
    | .error e => .ok (ToolResult.error ("Tool execution error: " ++ e))

/-- C3. `ToolRegistry.execute` never raises: it always returns a
`ToolResult`, the unknown-name case yields the structured
`"Unknown tool: <name>"` error result, and any exception thrown by the
tool's `execute` is converted into an error `ToolResult` rather than
propagated. -/
theorem registry_execute_total (reg : List (String × RegisteredTool)) (name : String)
    (args : List (String × Json)) (channel chat_id : String) (cb : Option AsyncCallback) :
    (∃ r : ToolResult, registryExecute reg name args channel chat_id cb = .ok r) ∧
    (alistLookup reg name = none →
      registryExecute reg name args channel chat_id cb =
        .ok (ToolResult.error ("Unknown tool: " ++ name))) ∧
    (∀ tool e, alistLookup reg name = some tool →
      tool.run args channel chat_id cb = .error e →
      registryExecute reg name args channel chat_id cb =
        .ok (ToolResult.error ("Tool execution error: " ++ e)) ∧
      (ToolResult.error ("Tool execution error: " ++ e)).is_error = true) := by
  refine ⟨?_, ?_, ?_⟩
  · cases h : alistLookup reg name with
    | none =>
      exact ⟨ToolResult.error ("Unknown tool: " ++ name), by simp [registryExecute, h]⟩
    | some tool =>
      cases hr : tool.run args channel chat_id cb with
      | ok r => exact ⟨r, by simp [registryExecute, h, hr]⟩
      | error e =>
        exact ⟨ToolResult.error ("Tool execution error: " ++ e), by simp [registryExecute, h, hr]⟩
  · intro h; simp [registryExecute, h]
  · intro tool e h hr; simp [registryExecute, h, hr, ToolResult.error]

/-- Witness for C3: executing an unregistered name on the empty registry
returns the structured unknown-tool error. -/
theorem registry_execute_total_witness :
    registryExecute [] "missing" [] "" "" none =
      .ok (ToolResult.error ("Unknown tool: " ++ "missing")) :=
  (registry_execute_total [] "missing" [] "" "" none).2.1 rfl

/-! ## Route resolver (`pytoclaw.routing.resolver.RouteResolver`) -/

/-- `pytoclaw.config.models.PeerMatch`. -/
structure PeerMatch where
  kind : String := ""
  id : String := ""

/-- `pytoclaw.models.RoutePeer`. -/
structure RoutePeer where
  kind : String := ""
  id : String := ""

/-- `pytoclaw.models.RouteInput`. -/
structure RouteInput where
  channel : String := ""
  account_id : String := ""
  peer : Option RoutePeer := none
  parent_peer : Option RoutePeer := none
  guild_id : String := ""
  team_id : String := ""

/-- `pytoclaw.config.models.BindingMatch`. -/
structure BindingMatch where
  channel : String := ""
  account_id : String := ""
  peer : Option PeerMatch := none
  guild_id : String := ""
  team_id : String := ""

/-- `pytoclaw.config.models.AgentBinding` (`match` is a Lean keyword,
hence `match_`). -/
structure AgentBinding where
  agent_id : String := ""
  match_ : BindingMatch := {}

/-- `pytoclaw.models.ResolvedRoute`. -/
structure ResolvedRoute where
  agent_id : String := ""
  channel : String := ""
  account_id : String := ""
  session_key : String := ""
  main_session_key : String := ""
  matched_by : String := ""

/-- `RouteResolver._build_route`: empty agent id falls back to
`"default"`, and the session keys are derived from the agent id and the
input. -/
def buildRoute (agent_id : String) (ri : RouteInput) (matched_by : String) : ResolvedRoute :=
  let aid := if agent_id = "" then "default" else agent_id
  { agent_id := aid, channel := ri.channel, account_id := ri.account_id,
    session_key := "agent:" ++ aid ++ ":" ++ ri.channel ++ ":" ++ ri.account_id,
    main_session_key := "agent:" ++ aid ++ ":main",
    matched_by := matched_by }

/-- The peer-level condition of `RouteResolver.resolve`. -/
def peerMatches (m : BindingMatch) (ri : RouteInput) : Bool :=
  match m.peer, ri.peer with
  | some mp, some rp =>
    mp.kind = rp.kind && mp.id = rp.id && (m.channel = "" || m.channel = ri.channel)
  | _, _ => false

/-- `RouteResolver.resolve`, transcribed binding by binding with the
rule checks in source order (peer, guild, team, account, channel
wildcard), falling back to the default route. -/
def resolve (bindings : List AgentBinding) (ri : RouteInput) : ResolvedRoute :=
  match bindings with
  | [] => buildRoute "" ri "default"
  | b :: rest =>
    let m := b.match_
    if peerMatches m ri then buildRoute b.agent_id ri "peer"
    else if m.guild_id ≠ "" && m.guild_id = ri.guild_id then buildRoute b.agent_id ri "guild"
    else if m.team_id ≠ "" && m.team_id = ri.team_id then buildRoute b.agent_id ri "team"
    else if m.account_id ≠ "" && m.account_id = ri.account_id then
      buildRoute b.agent_id ri "account"
    else if m.channel ≠ "" && m.channel = ri.channel && m.peer.isNone && m.account_id = "" then
      buildRoute b.agent_id ri "channel"
    else resolve rest ri

/-- The specification-level view of one binding: the first rule, in the
order peer, guild, team, account, channel wildcard, under which the
binding matches the input. -/
def matchRule (m : BindingMatch) (ri : RouteInput) : Option String :=
  if peerMatches m ri then some "peer"
  else if m.guild_id ≠ "" && m.guild_id = ri.guild_id then some "guild"
  else if m.team_id ≠ "" && m.team_id = ri.team_id then some "team"
  else if m.account_id ≠ "" && m.account_id = ri.account_id then some "account"
  else if m.channel ≠ "" && m.channel = ri.channel && m.peer.isNone && m.account_id = "" then
    some "channel"
  else none

theorem resolve_cons (b : AgentBinding) (rest : List AgentBinding) (ri : RouteInput) :
    resolve (b :: rest) ri =
      match matchRule b.match_ ri with
      | some rule => buildRoute b.agent_id ri rule
      | none => resolve rest ri := by
  simp only [resolve, matchRule]
  split_ifs <;> rfl

theorem resolve_eq_buildRoute (bindings : List AgentBinding) (ri : RouteInput) :
    ∃ aid mb, resolve bindings ri = buildRoute aid ri mb := by
  induction bindings with
  | nil => exact ⟨"", "default", rfl⟩
  | cons b rest ih =>
    rw [resolve_cons]
    cases h : matchRule b.match_ ri with
    | some rule => exact ⟨b.agent_id, rule, rfl⟩
    | none => exact ih

/-- C2. `resolve` returns the route built from the first binding, in
list order, that matches under the rules peer, guild, team, account,
channel wildcard (checked in that order within each binding); when no
binding matches it returns agent id `"default"` with matched-by
`"default"`; every result's `session_key` is
`agent:<agent_id>:<channel>:<account_id>` and its `main_session_key` is
`agent:<agent_id>:main`; the result is a pure function of the bindings
and the input. -/
theorem resolve_spec (bindings : List AgentBinding) (ri : RouteInput) :
    (resolve bindings ri =
      match bindings.findSome? (fun b => (matchRule b.match_ ri).map fun r => (b.agent_id, r)) with
      | some (aid, rule) => buildRoute aid ri rule
      | none => buildRoute "" ri "default") ∧
    (resolve bindings ri).session_key =
      "agent:" ++ (resolve bindings ri).agent_id ++ ":" ++ ri.channel ++ ":" ++ ri.account_id ∧
    (resolve bindings ri).main_session_key =
      "agent:" ++ (resolve bindings ri).agent_id ++ ":main" ∧
    ((∀ b ∈ bindings, matchRule b.match_ ri = none) →
      (resolve bindings ri).agent_id = "default" ∧
      (resolve bindings ri).matched_by = "default") := by
  refine ⟨?_, ?_, ?_, ?_⟩
  · induction bindings with
    | nil => rfl
    | cons b rest ih =>
      rw [resolve_cons, List.findSome?_cons]
      cases h : matchRule b.match_ ri with
      | some rule => simp [h]
      | none => simpa [h] using ih
  · obtain ⟨aid, mb, h⟩ := resolve_eq_buildRoute bindings ri
    rw [h]; simp [buildRoute]
  · obtain ⟨aid, mb, h⟩ := resolve_eq_buildRoute bindings ri
    rw [h]; simp [buildRoute]
  · intro hall
    induction bindings with
    | nil => exact ⟨rfl, rfl⟩
    | cons b rest ih =>
      rw [resolve_cons, hall b (by simp)]
      exact ih fun b' hb' => hall b' (by simp [hb'])

/-- Witness for C2: on an empty binding list and a concrete input the
resolver yields the default agent with the derived session keys. -/
theorem resolve_spec_witness :
    (resolve [] { channel := "tg", account_id := "acc" }).agent_id = "default" ∧
    (resolve [] { channel := "tg", account_id := "acc" }).matched_by = "default" ∧
    (resolve [] { channel := "tg", account_id := "acc" }).session_key =
      "agent:" ++ (resolve [] { channel := "tg", account_id := "acc" }).agent_id ++
        ":" ++ "tg" ++ ":" ++ "acc" := by
  have h := resolve_spec [] { channel := "tg", account_id := "acc" }
  have hd := h.2.2.2 (by intro b hb; simp at hb)
  exact ⟨hd.1, hd.2, h.2.1⟩

/-! ## Fallback chain (`pytoclaw.providers.fallback.FallbackChain`) -/

/-- `pytoclaw.models.UsageInfo`. -/
structure UsageInfo where
  prompt_tokens : Nat := 0
  completion_tokens : Nat := 0
  total_tokens : Nat := 0

/-- `pytoclaw.models.LLMResponse`. -/
structure LLMResponse where
  content : String := ""
  tool_calls : List ToolCall := []
  finish_reason : String := ""
  usage : Option UsageInfo := none

/-- `pytoclaw.models.ToolFunctionDefinition`. -/
structure ToolFunctionDefinition where
  name : String
  description : String := ""
  parameters : List (String × Json) := []

/-- `pytoclaw.models.ToolDefinition`. -/
structure ToolDefinition where
  type : String := "function"
  function : ToolFunctionDefinition

/-- `pytoclaw.models.FailoverReason`. -/
inductive FailoverReason where
  | auth
  | rate_limit
  | billing
  | timeout
  | format
  | overloaded
  | unknown
  deriving DecidableEq

/-- `pytoclaw.models.FallbackCandidate`. -/
structure FallbackCandidate where
  provider : String := ""
  model : String := ""
  deriving DecidableEq

/-- `pytoclaw.models.FallbackAttempt`. -/
structure FallbackAttempt where
  provider : String := ""
  model : String := ""
  error : Option String := none
  reason : FailoverReason := .unknown
  duration_ms : Nat := 0
  skipped : Bool := false
  deriving DecidableEq

/-- The `LLMProvider` protocol: `chat` may throw (`Except.error`). -/
structure LLMProvider where
  chat : List Message → List ToolDefinition → String →
    Option (List (String × Json)) → Except String LLMResponse

/-- Python `str.lower()` (the error strings involved are ASCII). -/
def strToLower (s : String) : String :=
  String.mk (s.data.map Char.toLower)

/-- Substring test, Python `pat in s`. -/
def charsContainSub (pat : List Char) : List Char → Bool
  | [] => pat.isEmpty
  | c :: rest => pat.isPrefixOf (c :: rest) || charsContainSub pat rest

def strContainsSub (s pat : String) : Bool :=
  charsContainSub pat.data s.data

/-- `_classify_error`: substring inspection of the lowercased message. -/
def classifyError (error : String) : FailoverReason :=
  let msg := strToLower error
  if strContainsSub msg "401" || strContainsSub msg "403" || strContainsSub msg "auth" then .auth
  else if strContainsSub msg "429" || strContainsSub msg "rate" then .rate_limit
  else if strContainsSub msg "402" || strContainsSub msg "billing" || strContainsSub msg "quota" then .billing
  else if strContainsSub msg "timeout" || strContainsSub msg "timed out" then .timeout
  else if strContainsSub msg "overloaded" || strContainsSub msg "529" || strContainsSub msg "503" then .overloaded
  else .unknown

/-- The per-candidate cooldown key `f"{provider}:{model}"`. -/
def cooldownKey (c : FallbackCandidate) : String :=
  c.provider ++ ":" ++ c.model

/-- The cooldown test of `FallbackChain.execute`: the key is present and
its timestamp lies within the cooldown window. -/
def inCooldown (cooldowns : List (String × Nat)) (sec now : Nat) (key : String) : Bool :=
  match alistLookup cooldowns key with
  | some t => now - t < sec
  | none => false

/-- An ASCII apostrophe, kept out of string literals. -/
def squote : String := String.singleton (Char.ofNat 39)

/-- The message of the missing-provider attempt. -/
def providerNotFound (p : String) : String :=
  "Provider " ++ squote ++ p ++ squote ++ " not found"

/-- The outcome of `FallbackChain.execute`: the returned
`(response, attempts)` pair or the `ProviderExhausted` failure carrying
the attempt list, together with the updated cooldown table and, for the
embedding, the trace of `provider.chat` invocations. -/
structure FcResult where
  outcome : Except (List FallbackAttempt) (LLMResponse × List FallbackAttempt)
  cooldowns : List (String × Nat)
  calls : List (String × String)

/-- The skipped attempt recorded for a missing provider. -/
def missingAttempt (c : FallbackCandidate) : FallbackAttempt :=
  { provider := c.provider, model := c.model,
    error := some (providerNotFound c.provider), reason := .unknown, skipped := true }

/-- The skipped attempt recorded for a candidate in cooldown. -/
def cooldownAttempt (c : FallbackCandidate) : FallbackAttempt :=
  { provider := c.provider, model := c.model,
    error := some "In cooldown", reason := .rate_limit, skipped := true }

/-- The non-skipped attempt recorded when the provider call raises. -/
def failureAttempt (c : FallbackCandidate) (e : String) : FallbackAttempt :=
  { provider := c.provider, model := c.model,
    error := some e, reason := classifyError e, skipped := false }

/-- The attempt recorded for a successful provider call. -/
def successAttempt (c : FallbackCandidate) : FallbackAttempt :=
  { provider := c.provider, model := c.model }

/-- The candidate loop of `FallbackChain.execute`: try each candidate in
order (missing provider → skipped `unknown` attempt; active cooldown →
skipped `rate_limit` attempt; provider call raising → classify, set the
cooldown, record a non-skipped attempt; success → return the response
with the attempts so far). -/
def fcRun (providers : List (String × LLMProvider)) (sec now : Nat)
    (msgs : List Message) (tools : List ToolDefinition)
    (options : Option (List (String × Json))) :
    List FallbackCandidate → List (String × Nat) → List FallbackAttempt →
    List (String × String) → FcResult
  | [], cds, attempts, calls => ⟨.error attempts, cds, calls⟩
  | c :: rest, cds, attempts, calls =>
    match alistLookup providers c.provider with
    | none =>
      fcRun providers sec now msgs tools options rest cds
        (attempts ++ [missingAttempt c]) calls
    | some p =>
      if inCooldown cds sec now (cooldownKey c) then
        fcRun providers sec now msgs tools options rest cds
          (attempts ++ [cooldownAttempt c]) calls
      else
        match p.chat msgs tools c.model options with
        | .ok resp =>
          ⟨.ok (resp, attempts ++ [successAttempt c]), cds, calls ++ [(c.provider, c.model)]⟩
        | .error e =>
          fcRun providers sec now msgs tools options rest
            (alistInsert cds (cooldownKey c) now)
            (attempts ++ [failureAttempt c e]) (calls ++ [(c.provider, c.model)])

/-- `FallbackChain.execute` with the default 60-second cooldown window,
starting from the chain's cooldown table. -/
def fcExecute (providers : List (String × LLMProvider)) (cooldowns : List (String × Nat))
    (now : Nat) (cands : List FallbackCandidate) (msgs : List Message)
    (tools : List ToolDefinition) (options : Option (List (String × Json))) : FcResult :=
  fcRun providers 60 now msgs tools options cands cooldowns [] []

/-- The attempts carried by an outcome, whether returned on success or
carried by the exhaustion failure. -/
def attemptsOf : Except (List FallbackAttempt) (LLMResponse × List FallbackAttempt) →
    List FallbackAttempt
  | .error l => l
  | .ok (_, l) => l

/-- A candidate that fails whenever its provider is actually called. -/
def failsFor (providers : List (String × LLMProvider)) (msgs : List Message)
    (tools : List ToolDefinition) (options : Option (List (String × Json)))
    (c : FallbackCandidate) : Prop :=
  ∀ p, alistLookup providers c.provider = some p →
    ∃ e, p.chat msgs tools c.model options = .error e

theorem fcRun_attempts_extend (providers : List (String × LLMProvider)) (sec now : Nat)
    (msgs : List Message) (tools : List ToolDefinition)
    (options : Option (List (String × Json))) :
    ∀ (cands : List FallbackCandidate) cds acc calls,
      ∃ l, attemptsOf (fcRun providers sec now msgs tools options cands cds acc calls).outcome
            = acc ++ l := by
  intro cands
  induction cands with
  | nil => intro cds acc calls; exact ⟨[], by simp [fcRun, attemptsOf]⟩
  | cons c rest ih =>
    intro cds acc calls
    cases h : alistLookup providers c.provider with
    | none =>
      obtain ⟨l, hl⟩ := ih cds (acc ++ [missingAttempt c]) calls
      refine ⟨missingAttempt c :: l, ?_⟩
      simp only [fcRun, h]
      rw [hl]; simp
    | some p =>
      cases hc : inCooldown cds sec now (cooldownKey c) with
      | true =>
        obtain ⟨l, hl⟩ := ih cds (acc ++ [cooldownAttempt c]) calls
        refine ⟨cooldownAttempt c :: l, ?_⟩
        simp only [fcRun, h, hc, if_true]
        rw [hl]; simp
      | false =>
        cases hr : p.chat msgs tools c.model options with
        | ok resp =>
          exact ⟨[successAttempt c], by simp [fcRun, h, hc, hr, attemptsOf]⟩
        | error e =>
          obtain ⟨l, hl⟩ :=
            ih (alistInsert cds (cooldownKey c) now) (acc ++ [failureAttempt c e])
              (calls ++ [(c.provider, c.model)])
          refine ⟨failureAttempt c e :: l, ?_⟩
          simp only [fcRun, h, hc, Bool.false_eq_true, if_false, hr]
          rw [hl]; simp

theorem fcRun_exhausts (providers : List (String × LLMProvider)) (sec now : Nat)
    (msgs : List Message) (tools : List ToolDefinition)
    (options : Option (List (String × Json))) :
    ∀ (cands : List FallbackCandidate),
      (∀ c ∈ cands, failsFor providers msgs tools options c) →
      ∀ cds acc calls,
        ∃ l, (fcRun providers sec now msgs tools options cands cds acc calls).outcome
              = .error (acc ++ l) ∧ l.length = cands.length := by
  intro cands
  induction cands with
  | nil => intro _ cds acc calls; exact ⟨[], by simp [fcRun], rfl⟩
  | cons c rest ih =>
    intro hall cds acc calls
    have hrest : ∀ c' ∈ rest, failsFor providers msgs tools options c' :=
      fun c' hc' => hall c' (by simp [hc'])
    cases h : alistLookup providers c.provider with
    | none =>
      obtain ⟨l, hl, hlen⟩ := ih hrest cds (acc ++ [missingAttempt c]) calls
      refine ⟨missingAttempt c :: l, ?_, by simp [hlen]⟩
      simp only [fcRun, h]
      rw [hl]; simp
    | some p =>
      cases hc : inCooldown cds sec now (cooldownKey c) with
      | true =>
        obtain ⟨l, hl, hlen⟩ := ih hrest cds (acc ++ [cooldownAttempt c]) calls
        refine ⟨cooldownAttempt c :: l, ?_, by simp [hlen]⟩
        simp only [fcRun, h, hc, if_true]
        rw [hl]; simp
      | false =>
        obtain ⟨e, he⟩ := hall c (by simp) p h
        obtain ⟨l, hl, hlen⟩ :=
          ih hrest (alistInsert cds (cooldownKey c) now) (acc ++ [failureAttempt c e])
            (calls ++ [(c.provider, c.model)])
        refine ⟨failureAttempt c e :: l, ?_, by simp [hlen]⟩
        simp only [fcRun, h, hc, Bool.false_eq_true, if_false, he]
        rw [hl]; simp

/-- C5. When every candidate of a non-empty list fails (missing
provider, active cooldown, or the provider call raising), `execute`
fails with the `ProviderExhausted` error carrying one attempt per
candidate. -/
theorem fallback_exhausted (providers : List (String × LLMProvider))
    (cooldowns : List (String × Nat)) (now : Nat) (cands : List FallbackCandidate)
    (msgs : List Message) (tools : List ToolDefinition)
    (options : Option (List (String × Json)))
    (hne : cands ≠ [])
    (hall : ∀ c ∈ cands, failsFor providers msgs tools options c) :
    ∃ attempts,
      (fcExecute providers cooldowns now cands msgs tools options).outcome = .error attempts ∧
      attempts.length = cands.length ∧ attempts ≠ [] := by
  obtain ⟨l, hl, hlen⟩ := fcRun_exhausts providers 60 now msgs tools options cands hall cooldowns [] []
  refine ⟨l, by simpa [fcExecute] using hl, hlen, ?_⟩
  intro h0
  rw [h0] at hlen
  exact hne (List.length_eq_zero.mp hlen.symm)

/-- A provider whose `chat` always succeeds with a fixed response. -/
def okProvider (resp : LLMResponse) : LLMProvider :=
  ⟨fun _ _ _ _ => .ok resp⟩

/-- A provider whose `chat` always raises with a fixed message. -/
def failProvider (e : String) : LLMProvider :=
  ⟨fun _ _ _ _ => .error e⟩

/-- Witness for C5: one raising provider followed by a missing provider
exhausts the chain with two attempts. -/
theorem fallback_exhausted_witness :
    ∃ attempts,
      (fcExecute [("A", failProvider "boom 429")] [] 0
        [{ provider := "A", model := "m" }, { provider := "B", model := "m" }]
        [] [] none).outcome = .error attempts ∧
      attempts.length = 2 ∧ attempts ≠ [] := by
  refine fallback_exhausted _ _ _ _ _ _ _ (by simp) ?_
  intro c hc
  simp only [List.mem_cons, List.mem_singleton] at hc
  cases hc with
  | inl h =>
    subst h
    intro p hp
    simp only [alistLookup, if_pos rfl] at hp
    cases hp
    exact ⟨"boom 429", rfl⟩
  | inr h =>
    cases h with
    | inl h' =>
      subst h'
      intro p hp
      simp [alistLookup] at hp
    | inr h' => cases h'

theorem inCooldown_insert (cds : List (String × Nat)) (sec now : Nat) (key k0 : String)
    (hsec : 0 < sec) (h : inCooldown cds sec now key = true) :
    inCooldown (alistInsert cds k0 now) sec now key = true := by
  unfold inCooldown at h ⊢
  rw [alistLookup_insert]
  by_cases hk : k0 = key
  · simp [hk, Nat.sub_self, hsec]
  · simpa [hk] using h

theorem fcRun_prefix_fail (providers : List (String × LLMProvider)) (sec now : Nat)
    (msgs : List Message) (tools : List ToolDefinition)
    (options : Option (List (String × Json))) (hsec : 0 < sec) :
    ∀ (pre rest : List FallbackCandidate),
      (∀ c ∈ pre, failsFor providers msgs tools options c) →
      ∀ cds acc calls,
        ∃ cds' acc' calls',
          fcRun providers sec now msgs tools options (pre ++ rest) cds acc calls =
            fcRun providers sec now msgs tools options rest cds' (acc ++ acc') (calls ++ calls') ∧
          (∀ key, inCooldown cds sec now key = true → inCooldown cds' sec now key = true) := by
  intro pre
  induction pre with
  | nil =>
    intro rest _ cds acc calls
    exact ⟨cds, [], [], by simp, fun _ h => h⟩
  | cons c pre' ih =>
    intro rest hall cds acc calls
    have hpre' : ∀ c' ∈ pre', failsFor providers msgs tools options c' :=
      fun c' hc' => hall c' (by simp [hc'])
    cases h : alistLookup providers c.provider with
    | none =>
      obtain ⟨cds', acc', calls', heq, hpres⟩ :=
        ih rest hpre' cds (acc ++ [missingAttempt c]) calls
      refine ⟨cds', missingAttempt c :: acc', calls', ?_, hpres⟩
      show fcRun providers sec now msgs tools options (c :: (pre' ++ rest)) cds acc calls = _
      simp only [fcRun, h]
      rw [heq]; simp
    | some p =>
      cases hc : inCooldown cds sec now (cooldownKey c) with
      | true =>
        obtain ⟨cds', acc', calls', heq, hpres⟩ :=
          ih rest hpre' cds (acc ++ [cooldownAttempt c]) calls
        refine ⟨cds', cooldownAttempt c :: acc', calls', ?_, hpres⟩
        show fcRun providers sec now msgs tools options (c :: (pre' ++ rest)) cds acc calls = _
        simp only [fcRun, h, hc, if_true]
        rw [heq]; simp
      | false =>
        obtain ⟨e, he⟩ := hall c (by simp) p h
        obtain ⟨cds', acc', calls', heq, hpres⟩ :=
          ih rest hpre' (alistInsert cds (cooldownKey c) now)
            (acc ++ [failureAttempt c e]) (calls ++ [(c.provider, c.model)])
        refine ⟨cds', failureAttempt c e :: acc', (c.provider, c.model) :: calls', ?_, ?_⟩
        · show fcRun providers sec now msgs tools options (c :: (pre' ++ rest)) cds acc calls = _
          simp only [fcRun, h, hc, Bool.false_eq_true, if_false, he]
          rw [heq]; simp
        · exact fun key hk => hpres key (inCooldown_insert cds sec now key (cooldownKey c) hsec hk)

theorem fcRun_no_call_in_cooldown (providers : List (String × LLMProvider)) (sec now : Nat)
    (msgs : List Message) (tools : List ToolDefinition)
    (options : Option (List (String × Json))) (key : String) (hsec : 0 < sec) :
    ∀ (cands : List FallbackCandidate) cds acc calls,
      inCooldown cds sec now key = true →
      ∀ pm ∈ (fcRun providers sec now msgs tools options cands cds acc calls).calls,
        pm ∈ calls ∨ pm.1 ++ ":" ++ pm.2 ≠ key := by
  intro cands
  induction cands with
  | nil =>
    intro cds acc calls _ pm hpm
    exact Or.inl (by simpa [fcRun] using hpm)
  | cons c rest ih =>
    intro cds acc calls hcd pm hpm
    cases h : alistLookup providers c.provider with
    | none =>
      simp only [fcRun, h] at hpm
      exact ih cds _ calls hcd pm hpm
    | some p =>
      cases hc : inCooldown cds sec now (cooldownKey c) with
      | true =>
        simp only [fcRun, h, hc, if_true] at hpm
        exact ih cds _ calls hcd pm hpm
      | false =>
        cases hr : p.chat msgs tools c.model options with
        | ok resp =>
          simp only [fcRun, h, hc, Bool.false_eq_true, if_false, hr] at hpm
          rcases List.mem_append.mp hpm with h1 | h2
          · exact Or.inl h1
          · right
            have hpm2 : pm = (c.provider, c.model) := by simpa using h2
            subst hpm2
            intro hkey
            have : inCooldown cds sec now (cooldownKey c) = true := by
              simpa [cooldownKey] using hkey ▸ hcd
            simp [this] at hc
        | error e =>
          simp only [fcRun, h, hc, Bool.false_eq_true, if_false, hr] at hpm
          have hcd' : inCooldown (alistInsert cds (cooldownKey c) now) sec now key = true :=
            inCooldown_insert cds sec now key (cooldownKey c) hsec hcd
          rcases ih (alistInsert cds (cooldownKey c) now) _ (calls ++ [(c.provider, c.model)])
              hcd' pm hpm with h1 | h2
          · rcases List.mem_append.mp h1 with h3 | h4
            · exact Or.inl h3
            · right
              have hpm2 : pm = (c.provider, c.model) := by simpa using h4
              subst hpm2
              intro hkey
              have : inCooldown cds sec now (cooldownKey c) = true := by
                simpa [cooldownKey] using hkey ▸ hcd
              simp [this] at hc
          · exact Or.inr h2

/-- Counterexample to C4 as stated: candidate `B:m` has its cooldown key
set 10 seconds before the call and its provider is registered, yet when
the earlier candidate `A` succeeds the returned attempts contain no
entry for `B` at all (the loop returns before reaching it). -/
theorem fallback_cooldown_claim_counterexample :
    alistLookup [("B:m", 50)] (cooldownKey { provider := "B", model := "m" }) = some 50 ∧
    60 - 50 < 60 ∧
    ({ provider := "B", model := "m" } : FallbackCandidate) ∈
      [({ provider := "A", model := "m" } : FallbackCandidate), { provider := "B", model := "m" }] ∧
    alistLookup [("A", okProvider { content := "ok" }), ("B", okProvider { content := "ok-b" })] "B"
      = some (okProvider { content := "ok-b" }) ∧
    (∀ a ∈ attemptsOf (fcExecute
        [("A", okProvider { content := "ok" }), ("B", okProvider { content := "ok-b" })]
        [("B:m", 50)] 60
        [{ provider := "A", model := "m" }, { provider := "B", model := "m" }]
        [] [] none).outcome,
      ¬(a.provider = "B" ∧ a.skipped = true ∧ a.reason = .rate_limit)) := by
  refine ⟨rfl, by decide, by simp, rfl, ?_⟩
  have hres : attemptsOf (fcExecute
      [("A", okProvider { content := "ok" }), ("B", okProvider { content := "ok-b" })]
      [("B:m", 50)] 60
      [{ provider := "A", model := "m" }, { provider := "B", model := "m" }]
      [] [] none).outcome = [successAttempt { provider := "A", model := "m" }] := rfl
  rw [hres]
  decide

/-- C4 (amended). A candidate whose cooldown key was set less than 60
seconds before `execute` is called is never invoked; and provided its
provider is registered and every earlier candidate fails when invoked
(so execution reaches it), the accumulated attempts contain for it a
skipped attempt with reason `rate_limit`, execution continuing with the
later candidates. -/
theorem fallback_cooldown_skip (providers : List (String × LLMProvider))
    (cds : List (String × Nat)) (now : Nat) (msgs : List Message)
    (tools : List ToolDefinition) (options : Option (List (String × Json)))
    (c : FallbackCandidate) (t : Nat)
    (ht : alistLookup cds (cooldownKey c) = some t)
    (hwin : now - t < 60) :
    (∀ cands : List FallbackCandidate,
      (c.provider, c.model) ∉
        (fcExecute providers cds now cands msgs tools options).calls) ∧
    (∀ (pre post : List FallbackCandidate) (p : LLMProvider),
      alistLookup providers c.provider = some p →
      (∀ c' ∈ pre, failsFor providers msgs tools options c') →
      ∃ a ∈ attemptsOf
          (fcExecute providers cds now (pre ++ c :: post) msgs tools options).outcome,
        a.provider = c.provider ∧ a.model = c.model ∧
        a.skipped = true ∧ a.reason = .rate_limit) := by
  have hcd : inCooldown cds 60 now (cooldownKey c) = true := by
    simp [inCooldown, ht, hwin]
  constructor
  · intro cands hmem
    rcases fcRun_no_call_in_cooldown providers 60 now msgs tools options (cooldownKey c)
        (by decide) cands cds [] [] hcd (c.provider, c.model) hmem with h1 | h2
    · simp at h1
    · exact h2 rfl
  · intro pre post p hp hpre
    obtain ⟨cds', acc', calls', heq, hpres⟩ :=
      fcRun_prefix_fail providers 60 now msgs tools options (by decide)
        pre (c :: post) hpre cds [] []
    have hcd' : inCooldown cds' 60 now (cooldownKey c) = true := hpres _ hcd
    have hstep : fcRun providers 60 now msgs tools options (c :: post) cds' acc' calls' =
        fcRun providers 60 now msgs tools options post cds' (acc' ++ [cooldownAttempt c]) calls' := by
      simp only [fcRun, hp, hcd', if_true]
    obtain ⟨l, hl⟩ :=
      fcRun_attempts_extend providers 60 now msgs tools options post cds'
        (acc' ++ [cooldownAttempt c]) calls'
    refine ⟨cooldownAttempt c, ?_, rfl, rfl, rfl, rfl⟩
    have : attemptsOf (fcExecute providers cds now (pre ++ c :: post) msgs tools options).outcome
        = acc' ++ [cooldownAttempt c] ++ l := by
      rw [fcExecute, heq]
      simpa [hstep] using hl
    rw [this]
    simp

/-- Witness for C4 (amended): candidate `A` raises, candidate `B:m` is
in cooldown; `B` is never invoked and the attempts carry its skipped
`rate_limit` entry. -/
theorem fallback_cooldown_skip_witness :
    (("B" : String), ("m" : String)) ∉
      (fcExecute [("A", failProvider "e500"), ("B", okProvider { content := "x" })]
        [("B:m", 50)] 60
        [{ provider := "A", model := "m" }, { provider := "B", model := "m" }]
        [] [] none).calls ∧
    ∃ a ∈ attemptsOf (fcExecute
        [("A", failProvider "e500"), ("B", okProvider { content := "x" })]
        [("B:m", 50)] 60
        ([{ provider := "A", model := "m" }] ++ { provider := "B", model := "m" } :: [])
        [] [] none).outcome,
      a.provider = "B" ∧ a.model = "m" ∧ a.skipped = true ∧ a.reason = .rate_limit := by
  have h := fallback_cooldown_skip
    [("A", failProvider "e500"), ("B", okProvider { content := "x" })]
    [("B:m", 50)] 60 [] [] none
    { provider := "B", model := "m" } 50 rfl (by decide)
  refine ⟨h.1 [{ provider := "A", model := "m" }, { provider := "B", model := "m" }], ?_⟩
  exact h.2 [{ provider := "A", model := "m" }] [] (okProvider { content := "x" }) rfl
    (by
      intro c' hc'
      have : c' = { provider := "A", model := "m" } := by simpa using hc'
      subst this
      intro q hq
      simp only [alistLookup, if_pos rfl] at hq
      cases hq
      exact ⟨"e500", rfl⟩)

/-! ## Cron service (`pyclaw.services.cron_service.CronService`)

The `croniter` library is external to the repository; the cron branch of
`_compute_next_run` is parameterized by an oracle `cronNext` that may
fail (`none`, the logged invalid-expression path). -/

/-- The `schedule` mapping of a job: a tagged `kind` plus the fields the
kinds read (`at_ms`, `every_ms`, `expr`). -/
structure Schedule where
  kind : String := ""
  at_ms : Option Nat := none
  every_ms : Option Nat := none
  expr : String := ""

/-- The `payload` mapping built by `add_job` (the source field `to` is
a Lean keyword, hence `to_`). -/
structure JobPayload where
  kind : String := "agent_turn"
  message : String := ""
  command : String := ""
  deliver : Bool := true
  channel : String := ""
  to_ : String := ""

/-- The `state` mapping of a job. -/
structure JobState where
  next_run_ms : Option Nat := none
  last_run_ms : Option Nat := none
  last_status : Option String := none
  last_error : Option String := none

/-- A scheduled job as stored in `jobs.json`. -/
structure CronJob where
  id : String
  name : String := ""
  enabled : Bool := true
  schedule : Schedule := {}
  payload : JobPayload := {}
  state : JobState := {}
  created_ms : Nat := 0
  updated_ms : Nat := 0
  delete_after_run : Bool := false

/-- A job handler: receives the job and returns an optional string, or
raises. -/
def JobHandler : Type := CronJob → Except String (Option String)

/-- `CronService._compute_next_run`. -/
def computeNextRun (cronNext : String → Nat → Option Nat) (schedule : Schedule)
    (now_ms : Nat) : Option Nat :=
  if schedule.kind = "at" then schedule.at_ms
  else if schedule.kind = "every" then some (now_ms + schedule.every_ms.getD 60000)
  else if schedule.kind = "cron" then cronNext schedule.expr now_ms
  else none

/-- The job record built by `CronService.add_job` (the random hex id and
the clock are inputs of the embedding). -/
def mkJob (cronNext : String → Nat → Option Nat) (job_id name : String)
    (schedule : Schedule) (message command : String) (deliver : Bool)
    (channel chat_id : String) (now_ms : Nat) : CronJob :=
  { id := job_id, name := name, enabled := true, schedule := schedule,
    payload := { kind := "agent_turn", message := message, command := command,
                 deliver := deliver, channel := channel, to_ := chat_id },
    state := { next_run_ms := computeNextRun cronNext schedule now_ms,
               last_run_ms := none, last_status := none, last_error := none },
    created_ms := now_ms, updated_ms := now_ms,
    delete_after_run := decide (schedule.kind = "at") }

/-- `CronService.add_job`: append the new job to the list. -/
def addJob (jobs : List CronJob) (cronNext : String → Nat → Option Nat)
    (job_id name : String) (schedule : Schedule) (message command : String)
    (deliver : Bool) (channel chat_id : String) (now_ms : Nat) : List CronJob :=
  jobs ++ [mkJob cronNext job_id name schedule message command deliver channel chat_id now_ms]

/-- The due test of `CronService._check_jobs`: enabled and
`next_run_ms ≤ now`. -/
def jobDue (now_ms : Nat) (job : CronJob) : Bool :=
  job.enabled &&
    match job.state.next_run_ms with
    | none => false
    | some nr => decide (nr ≤ now_ms)

/-- The per-due-job body of `_check_jobs`: clear `next_run_ms`, invoke
the handler (recording `last_status` / `last_error`), stamp
`last_run_ms`, and recompute `next_run_ms` only when the job is not
`delete_after_run`. -/
def runJob (handler : Option JobHandler) (cronNext : String → Nat → Option Nat)
    (now_ms : Nat) (job : CronJob) : CronJob :=
  let cleared : JobState := { job.state with next_run_ms := none }
  let st1 : JobState :=
    match handler with
    | some h =>
      match h { job with state := cleared } with
      | .ok _ => { cleared with last_status := some "ok", last_error := none }
      | .error e => { cleared with last_status := some "error", last_error := some e }
    | none => { cleared with last_status := some "error", last_error := some "No handler configured" }
  let st2 : JobState := { st1 with last_run_ms := some now_ms }
  if job.delete_after_run then { job with state := st2 }
  else { job with state := { st2 with next_run_ms := computeNextRun cronNext job.schedule now_ms } }

/-- `CronService._check_jobs` over one tick: run every due job, then
drop the `delete_after_run` ones that ran.  Returns the new job list and
the ids for which the handler was invoked. -/
def checkJobs (handler : Option JobHandler) (cronNext : String → Nat → Option Nat)
    (now_ms : Nat) (jobs : List CronJob) : List CronJob × List String :=
  let processed := jobs.map fun job =>
    if jobDue now_ms job then runJob handler cronNext now_ms job else job
  let to_delete := (jobs.filter fun job => jobDue now_ms job && job.delete_after_run).map (·.id)
  let remaining :=
    if to_delete.isEmpty then processed
    else processed.filter fun j => decide (j.id ∉ to_delete)
  let fired :=
    match handler with
    | some _ => (jobs.filter (jobDue now_ms)).map (·.id)
    | none => []
  (remaining, fired)

/-- `CronService.list_jobs`. -/
def listJobs (jobs : List CronJob) (include_disabled : Bool) : List CronJob :=
  if include_disabled then jobs else jobs.filter (·.enabled)

/-- Python `str.startswith`. -/
def strStartsWith (s p : String) : Bool :=
  p.data.isPrefixOf s.data

/-- `CronService.remove_job`: drop every job whose id has `job_id` as a
prefix; report whether anything was dropped. -/
def removeJob (jobs : List CronJob) (job_id : String) : List CronJob × Bool :=
  let remaining := jobs.filter fun j => !(strStartsWith j.id job_id)
  (remaining, decide (remaining.length < jobs.length))

theorem count_filter_map_id (p : CronJob → Bool) (jobs : List CronJob)
    (hnodup : (jobs.map CronJob.id).Nodup) (j : CronJob)
    (hmem : j ∈ jobs) (hp : p j = true) :
    ((jobs.filter p).map CronJob.id).count j.id = 1 := by
  have hone : (jobs.map CronJob.id).count j.id = 1 :=
    List.count_eq_one_of_mem hnodup (List.mem_map_of_mem CronJob.id hmem)
  have hsub : ((jobs.filter p).map CronJob.id).Sublist (jobs.map CronJob.id) :=
    (List.filter_sublist jobs).map CronJob.id
  have hle : ((jobs.filter p).map CronJob.id).count j.id ≤ 1 := by
    calc ((jobs.filter p).map CronJob.id).count j.id
        ≤ (jobs.map CronJob.id).count j.id := hsub.count_le j.id
      _ = 1 := hone
  have hge : 1 ≤ ((jobs.filter p).map CronJob.id).count j.id := by
    have : j.id ∈ (jobs.filter p).map CronJob.id :=
      List.mem_map_of_mem CronJob.id (List.mem_filter.mpr ⟨hmem, hp⟩)
    exact List.one_le_count_iff.mpr this
  omega

theorem checkJobs_one_shot (handler : JobHandler) (cronNext : String → Nat → Option Nat)
    (now : Nat) (jobs : List CronJob) (j : CronJob) (t : Nat)
    (hmem : j ∈ jobs) (hnodup : (jobs.map CronJob.id).Nodup)
    (hen : j.enabled = true) (hdel : j.delete_after_run = true)
    (hdue : j.state.next_run_ms = some t) (hle : t ≤ now) :
    (checkJobs (some handler) cronNext now jobs).2.count j.id = 1 ∧
    (∀ x ∈ listJobs (checkJobs (some handler) cronNext now jobs).1 true, x.id ≠ j.id) ∧
    (runJob (some handler) cronNext now j).state.next_run_ms = none := by
  have hdueb : jobDue now j = true := by
    unfold jobDue
    rw [hdue, hen]
    show (true && decide (t ≤ now)) = true
    simp [hle]
  refine ⟨?_, ?_, ?_⟩
  · have := count_filter_map_id (jobDue now) jobs hnodup j hmem hdueb
    simpa [checkJobs] using this
  · intro x hx
    have hmemf : j ∈ jobs.filter fun job => jobDue now job && job.delete_after_run := by
      apply List.mem_filter.mpr
      refine ⟨hmem, ?_⟩
      simp [hdueb, hdel]
    have hto : j.id ∈ (jobs.filter fun job => jobDue now job && job.delete_after_run).map (·.id) :=
      List.mem_map_of_mem (·.id) hmemf
    have hne : ((jobs.filter fun job => jobDue now job && job.delete_after_run).map (·.id)).isEmpty = false := by
      cases hcase : (jobs.filter fun job => jobDue now job && job.delete_after_run).map (·.id) with
      | nil => rw [hcase] at hto; simp at hto
      | cons a l => rfl
    simp only [listJobs, if_true, checkJobs, hne, Bool.false_eq_true, if_false] at hx
    have hnot := (List.mem_filter.mp hx).2
    simp only [decide_eq_true_eq] at hnot
    intro heq
    rw [heq] at hnot
    exact hnot hto
  · simp only [runJob, hdel, if_true]
    split <;> rfl

/-- C7. A job added with schedule kind `"at"` has
`delete_after_run = true`; on a tick where its `next_run_ms ≤ now` the
handler fires exactly once for it, no new `next_run_ms` is computed (the
run leaves it cleared), and the job is gone from the job list, hence
from `list_jobs`. -/
theorem cron_one_shot (cronNext : String → Nat → Option Nat)
    (job_id name message command : String) (deliver : Bool) (channel chat_id : String)
    (created_now : Nat) (schedule : Schedule) (handler : JobHandler)
    (now t : Nat) (jobs : List CronJob)
    (hkind : schedule.kind = "at")
    (hmem : mkJob cronNext job_id name schedule message command deliver channel chat_id created_now ∈ jobs)
    (hnodup : (jobs.map CronJob.id).Nodup)
    (hdue : (mkJob cronNext job_id name schedule message command deliver channel chat_id created_now).state.next_run_ms = some t)
    (hle : t ≤ now) :
    (mkJob cronNext job_id name schedule message command deliver channel chat_id created_now).delete_after_run = true ∧
    (checkJobs (some handler) cronNext now jobs).2.count job_id = 1 ∧
    (∀ j ∈ listJobs (checkJobs (some handler) cronNext now jobs).1 true, j.id ≠ job_id) ∧
    (runJob (some handler) cronNext now
      (mkJob cronNext job_id name schedule message command deliver channel chat_id created_now)).state.next_run_ms = none := by
  have hdel : (mkJob cronNext job_id name schedule message command deliver channel chat_id created_now).delete_after_run = true := by
    simp [mkJob, hkind]
  have h := checkJobs_one_shot handler cronNext now jobs
    (mkJob cronNext job_id name schedule message command deliver channel chat_id created_now)
    t hmem hnodup rfl hdel hdue hle
  exact ⟨hdel, h.1, h.2.1, h.2.2⟩

/-- Witness for C7 on a concrete one-shot job due at `t = 50`,
`now = 100`. -/
theorem cron_one_shot_witness :
    (mkJob (fun _ _ => none) "j1" "n" { kind := "at", at_ms := some 50 } "run" "" true "" "" 0).delete_after_run = true ∧
    (checkJobs (some fun _ => .ok none) (fun _ _ => none) 100
      [mkJob (fun _ _ => none) "j1" "n" { kind := "at", at_ms := some 50 } "run" "" true "" "" 0]).2.count "j1" = 1 ∧
    (∀ j ∈ listJobs (checkJobs (some fun _ => .ok none) (fun _ _ => none) 100
      [mkJob (fun _ _ => none) "j1" "n" { kind := "at", at_ms := some 50 } "run" "" true "" "" 0]).1 true,
      j.id ≠ "j1") ∧
    (runJob (some fun _ => .ok none) (fun _ _ => none) 100
      (mkJob (fun _ _ => none) "j1" "n" { kind := "at", at_ms := some 50 } "run" "" true "" "" 0)).state.next_run_ms = none := by
  exact cron_one_shot (fun _ _ => none) "j1" "n" "run" "" true "" "" 0
    { kind := "at", at_ms := some 50 } (fun _ => .ok none) 100 50
    [mkJob (fun _ _ => none) "j1" "n" { kind := "at", at_ms := some 50 } "run" "" true "" "" 0]
    rfl (by simp) (by simp) rfl (by decide)

/-- C9. `remove_job(job_id)` removes exactly the jobs whose stored id
has `job_id` as a prefix and returns true iff at least one was removed;
`remove_job("")` on a non-empty list removes everything and returns
true. -/
theorem remove_job_spec (jobs : List CronJob) (job_id : String) :
    (∀ j ∈ jobs, strStartsWith j.id job_id = true → j ∉ (removeJob jobs job_id).1) ∧
    (∀ j ∈ (removeJob jobs job_id).1, j ∈ jobs ∧ strStartsWith j.id job_id = false) ∧
    ((removeJob jobs job_id).2 = true ↔ ∃ j ∈ jobs, strStartsWith j.id job_id = true) ∧
    (∀ j : CronJob, strStartsWith j.id "" = true) ∧
    (jobs ≠ [] → removeJob jobs "" = ([], true)) := by
  refine ⟨?_, ?_, ?_, fun j => by simp [strStartsWith], ?_⟩
  · intro j hj hpre hmem
    have := (List.mem_filter.mp hmem).2
    simp [hpre] at this
  · intro j hj
    have h := List.mem_filter.mp hj
    exact ⟨h.1, by simpa using h.2⟩
  · simp only [removeJob, decide_eq_true_eq]
    rw [List.length_filter_lt_length_iff_exists]
    constructor
    · rintro ⟨j, hj, hp⟩
      exact ⟨j, hj, by simpa using hp⟩
    · rintro ⟨j, hj, hp⟩
      exact ⟨j, hj, by simp [hp]⟩
  · intro hne
    have hfil : (jobs.filter fun j => !(strStartsWith j.id "")) = [] := by
      apply List.filter_eq_nil_iff.mpr
      intro j _
      simp [strStartsWith]
    simp only [removeJob, hfil]
    have : 0 < jobs.length := List.length_pos.mpr hne
    simp [this]

/-- Witness for C9: removing by the prefix `"ab"` drops `"abc"` and
keeps `"xyz"`; removing by `""` empties the list. -/
theorem remove_job_spec_witness :
    (({ id := "abc" } : CronJob) ∉ (removeJob [{ id := "abc" }, { id := "xyz" }] "ab").1) ∧
    removeJob [({ id := "abc" } : CronJob), { id := "xyz" }] "" = ([], true) := by
  refine ⟨?_, ?_⟩
  · exact (remove_job_spec [{ id := "abc" }, { id := "xyz" }] "ab").1
      { id := "abc" } (by simp) rfl
  · exact (remove_job_spec [({ id := "abc" } : CronJob), { id := "xyz" }] "").2.2.2.2 (by simp)

end Pyclaw
